import Mathlib

/-!
Verification of the task-scheduling core (`os/src/task/manager.rs` and
`os/src/task/processor.rs`): a stride-scheduling ready list and the
processor's current-task operations, shallowly embedded in Lean.

Machine integers (`usize`) are modelled as `Nat`; the `usize::MAX`
sentinel used by `TaskManager::fetch` is the explicit constant
`USIZE_MAX = 2^64 - 1`.
-/

/-- `usize::MAX` on the 64-bit target (riscv64). -/
def USIZE_MAX : Nat := 2 ^ 64 - 1

/-- Task lifecycle status (`TaskStatus`); the core reads and writes only
`Ready`/`Running`, other states are owned externally. -/
inductive TaskStatus where
  | Ready
  | Running
  | Exited
deriving DecidableEq

/-- Modelled from the spec: an opaque saved-execution-context record
(`TaskContext`), used only as a value handed to the control-transfer
primitive; its contents are never inspected by this core. -/
structure TaskContext where
  raw : Nat
deriving DecidableEq

/-- Embeds `TaskContext::zero_init`. -/
def TaskContext.zero_init : TaskContext := ⟨0⟩

/-- Modelled from the spec: an opaque trap-frame record (`TrapContext`). -/
structure TrapContext where
  raw : Nat
deriving DecidableEq

/-- Modelled from the spec: a permission set over
Read/Write/Execute/User-accessible (`MapPermission`, a bitflags set). -/
structure MapPermission where
  r : Bool
  w : Bool
  x : Bool
  u : Bool
deriving DecidableEq

/-- Embeds `MapPermission::empty()`. -/
def MapPermission.empty : MapPermission := ⟨false, false, false, false⟩

/-- Embeds the `MapPermission::R` flag. -/
def MapPermission.R : MapPermission := ⟨true, false, false, false⟩

/-- Embeds the `MapPermission::W` flag. -/
def MapPermission.W : MapPermission := ⟨false, true, false, false⟩

/-- Embeds the `MapPermission::X` flag. -/
def MapPermission.X : MapPermission := ⟨false, false, true, false⟩

/-- Embeds the `MapPermission::U` flag. -/
def MapPermission.U : MapPermission := ⟨false, false, false, true⟩

/-- Embeds bitflags `&` (intersection). -/
def MapPermission.inter (a b : MapPermission) : MapPermission :=
  ⟨a.r && b.r, a.w && b.w, a.x && b.x, a.u && b.u⟩

/-- Embeds bitflags `|` (union). -/
def MapPermission.union (a b : MapPermission) : MapPermission :=
  ⟨a.r || b.r, a.w || b.w, a.x || b.x, a.u || b.u⟩

/-- Modelled from the spec: `MapPermission::from(port)` decodes a raw
permission encoding whose low bits correspond to Read/Write/Execute/User
(only the low bits are significant). -/
def MapPermission.fromPort (port : Nat) : MapPermission :=
  ⟨port.testBit 0, port.testBit 1, port.testBit 2, port.testBit 3⟩

/-- Modelled from the spec: one framed mapping tracked by a task's
address space, created/destroyed as a unit over `[astart, aend)`. -/
structure FramedArea where
  astart : Nat
  aend : Nat
  perm : MapPermission
deriving DecidableEq

/-- Modelled from the spec: the Task Control Block fields consumed by this
core (status, saved context, stride, syscall counter table, start time,
user token, trap frame, address-space map). -/
structure TaskControlBlock where
  task_status : TaskStatus
  task_cx : TaskContext
  stride : Nat
  syscall_times : List Nat
  start_time : Nat
  token : Nat
  trap_cx : TrapContext
  memory_set : List FramedArea
deriving DecidableEq

namespace TaskManager

/-- The Ready List of `TaskManager`: an ordered collection of task
handles (`LinkedList<Arc<TaskControlBlock>>`). -/
def ReadyList := List TaskControlBlock

/-- Embeds `TaskManager::add`: `self.ready_list.push_back(task)`. -/
def add (l : List TaskControlBlock) (task : TaskControlBlock) :
    List TaskControlBlock :=
  l ++ [task]

/-- Embeds the scan loop of `TaskManager::fetch`: iterates over the ready
list carrying `i`, `min_stride` and `min_i` (an `isize`, `-1` meaning no
minimum found yet), updating on a strict `stride < min_stride` test. -/
def fetchLoop : List TaskControlBlock → Int → Nat → Int → Nat × Int
  | [], _, min_stride, min_i => (min_stride, min_i)
  | task :: rest, i, min_stride, min_i =>
    if task.stride < min_stride then
      fetchLoop rest (i + 1) task.stride i
    else
      fetchLoop rest (i + 1) min_stride min_i

/-- Embeds `TaskManager::fetch`: scan with `min_stride` initialised to
`usize::MAX` and `min_i` to `-1`; return `None` when `min_i == -1`, else
remove and return the element at `min_i` (`LinkedList::remove`). -/
def fetch (l : List TaskControlBlock) :
    Option (TaskControlBlock × List TaskControlBlock) :=
  if (fetchLoop l 0 USIZE_MAX (-1)).2 = -1 then
    none
  else
    match l[(fetchLoop l 0 USIZE_MAX (-1)).2.toNat]? with
    | some task => some (task, l.eraseIdx (fetchLoop l 0 USIZE_MAX (-1)).2.toNat)
    | none => none

/-- Structural-recursion form of the scan: returns the index (relative to
the current position) that the scan loop would record, given the current
running minimum `ms`; `none` when no element beats `ms` strictly. -/
def fetchIdx : List TaskControlBlock → Nat → Option Nat
  | [], _ => none
  | task :: rest, ms =>
    if task.stride < ms then
      match fetchIdx rest task.stride with
      | some j => some (j + 1)
      | none => some 0
    else
      (fetchIdx rest ms).map (· + 1)

theorem fetchLoop_eq_fetchIdx (l : List TaskControlBlock) :
    ∀ (i mi : Int) (ms : Nat),
      (fetchLoop l i ms mi).2 =
        match fetchIdx l ms with
        | some j => i + j
        | none => mi := by
  induction l with
  | nil => intro i mi ms; rfl
  | cons task rest ih =>
    intro i mi ms
    by_cases h : task.stride < ms
    · simp only [fetchLoop, fetchIdx, if_pos h]
      rw [ih (i + 1) i task.stride]
      cases hr : fetchIdx rest task.stride with
      | none => simp
      | some j => push_cast; ring
    · simp only [fetchLoop, fetchIdx, if_neg h]
      rw [ih (i + 1) mi ms]
      cases hr : fetchIdx rest ms with
      | none => simp
      | some j => simp; ring

theorem fetchIdx_none_iff (l : List TaskControlBlock) (ms : Nat) :
    fetchIdx l ms = none ↔ ∀ t ∈ l, ¬ t.stride < ms := by
  induction l generalizing ms with
  | nil => simp [fetchIdx]
  | cons task rest ih =>
    by_cases h : task.stride < ms
    · simp only [fetchIdx, if_pos h]
      constructor
      · intro hc
        cases hr : fetchIdx rest task.stride <;> simp [hr] at hc
      · intro hall
        exact absurd h (hall task (by simp))
    · simp only [fetchIdx, if_neg h]
      constructor
      · intro hc t ht
        rcases List.mem_cons.mp ht with rfl | ht
        · exact h
        · cases hr : fetchIdx rest ms with
          | none => exact (ih ms).mp hr t ht
          | some j => simp [hr] at hc
      · intro hall
        have : fetchIdx rest ms = none :=
          (ih ms).mpr (fun t ht => hall t (List.mem_cons_of_mem _ ht))
        simp [this]

theorem fetchIdx_spec (l : List TaskControlBlock) (ms : Nat) (j : Nat)
    (hj : fetchIdx l ms = some j) :
    ∃ h : j < l.length,
      (l.get ⟨j, h⟩).stride < ms ∧
      (∀ k (hk : k < l.length), (l.get ⟨j, h⟩).stride ≤ (l.get ⟨k, hk⟩).stride) ∧
      (∀ k (hk : k < j),
        (l.get ⟨j, h⟩).stride < (l.get ⟨k, Nat.lt_trans hk h⟩).stride) := by
  induction l generalizing ms j with
  | nil => simp [fetchIdx] at hj
  | cons task rest ih =>
    by_cases h : task.stride < ms
    · simp only [fetchIdx, if_pos h] at hj
      cases hr : fetchIdx rest task.stride with
      | some j' =>
        rw [hr] at hj
        simp only [Option.some.injEq] at hj
        subst hj
        obtain ⟨hlen, hlt, hmin, hfirst⟩ := ih task.stride j' hr
        refine ⟨by simpa using Nat.succ_lt_succ hlen, ?_, ?_, ?_⟩
        · exact Nat.lt_trans hlt h
        · intro k hk
          cases k with
          | zero => exact Nat.le_of_lt hlt
          | succ k' =>
            exact hmin k' (by simpa using Nat.lt_of_succ_lt_succ hk)
        · intro k hk
          cases k with
          | zero => exact hlt
          | succ k' => exact hfirst k' (Nat.lt_of_succ_lt_succ hk)
      | none =>
        rw [hr] at hj
        simp only [Option.some.injEq] at hj
        subst hj
        refine ⟨by simp, h, ?_, ?_⟩
        · intro k hk
          cases k with
          | zero => exact Nat.le_refl _
          | succ k' =>
            have hnone := (fetchIdx_none_iff rest task.stride).mp hr
            have hk' : k' < rest.length := by simpa using Nat.lt_of_succ_lt_succ hk
            have := hnone (rest.get ⟨k', hk'⟩) (rest.get_mem _ _)
            simpa using Nat.le_of_not_lt this
        · intro k hk; exact absurd hk (Nat.not_lt_zero k)
    · simp only [fetchIdx, if_neg h] at hj
      cases hr : fetchIdx rest ms with
      | none => rw [hr] at hj; simp at hj
      | some j' =>
        rw [hr] at hj
        simp only [Option.map_some', Option.some.injEq] at hj
        subst hj
        obtain ⟨hlen, hlt, hmin, hfirst⟩ := ih ms j' hr
        refine ⟨by simpa using Nat.succ_lt_succ hlen, hlt, ?_, ?_⟩
        · intro k hk
          cases k with
          | zero => exact Nat.le_of_lt (Nat.lt_of_lt_of_le hlt (Nat.le_of_not_lt h))
          | succ k' =>
            exact hmin k' (by simpa using Nat.lt_of_succ_lt_succ hk)
        · intro k hk
          cases k with
          | zero => exact Nat.lt_of_lt_of_le hlt (Nat.le_of_not_lt h)
          | succ k' => exact hfirst k' (Nat.lt_of_succ_lt_succ hk)

theorem fetch_cases (l : List TaskControlBlock) :
    (fetchIdx l USIZE_MAX = none ∧ fetch l = none) ∨
    (∃ j, ∃ h : j < l.length, fetchIdx l USIZE_MAX = some j ∧
      fetch l = some (l.get ⟨j, h⟩, l.eraseIdx j)) := by
  have hloop := fetchLoop_eq_fetchIdx l 0 (-1) USIZE_MAX
  cases hidx : fetchIdx l USIZE_MAX with
  | none =>
    left
    rw [hidx] at hloop
    exact ⟨rfl, by unfold fetch; rw [hloop]; simp⟩
  | some j =>
    right
    obtain ⟨h, -, -, -⟩ := fetchIdx_spec l USIZE_MAX j hidx
    refine ⟨j, h, rfl, ?_⟩
    rw [hidx] at hloop
    simp only [Int.zero_add] at hloop
    have hne : ¬ ((fetchLoop l 0 USIZE_MAX (-1)).2 = -1) := by
      rw [hloop]; omega
    have htn : (fetchLoop l 0 USIZE_MAX (-1)).2.toNat = j := by
      rw [hloop]; omega
    unfold fetch
    rw [if_neg hne, htn, List.getElem?_eq_getElem h]
    rfl

theorem fetch_eq_none_iff (l : List TaskControlBlock) :
    fetch l = none ↔ ∀ t ∈ l, ¬ t.stride < USIZE_MAX := by
  rcases fetch_cases l with ⟨hidx, hf⟩ | ⟨j, h, hidx, hf⟩
  · exact iff_of_true hf ((fetchIdx_none_iff l USIZE_MAX).mp hidx)
  · have hne : fetch l ≠ none := by rw [hf]; simp
    refine iff_of_false hne ?_
    intro hall
    obtain ⟨h', hlt, -, -⟩ := fetchIdx_spec l USIZE_MAX j hidx
    exact hall (l.get ⟨j, h'⟩) (l.get_mem _ _) hlt

theorem fetch_eq_some_spec (l : List TaskControlBlock)
    (t : TaskControlBlock) (l' : List TaskControlBlock)
    (hf : fetch l = some (t, l')) :
    ∃ j, ∃ h : j < l.length,
      t = l.get ⟨j, h⟩ ∧ l' = l.eraseIdx j ∧
      t.stride < USIZE_MAX ∧
      (∀ k (hk : k < l.length), t.stride ≤ (l.get ⟨k, hk⟩).stride) ∧
      (∀ k (hk : k < j), t.stride < (l.get ⟨k, Nat.lt_trans hk h⟩).stride) := by
  rcases fetch_cases l with ⟨hidx, hnone⟩ | ⟨j, h, hidx, hsome⟩
  · rw [hnone] at hf; exact absurd hf (by simp)
  · rw [hsome] at hf
    obtain ⟨ht, hl'⟩ : t = l.get ⟨j, h⟩ ∧ l' = l.eraseIdx j := by
      have := Option.some.inj hf
      exact ⟨(Prod.mk.injEq _ _ _ _ ▸ this).1.symm, (Prod.mk.injEq _ _ _ _ ▸ this).2.symm⟩
    obtain ⟨h', hlt, hmin, hfirst⟩ := fetchIdx_spec l USIZE_MAX j hidx
    subst ht hl'
    exact ⟨j, h, rfl, rfl, hlt, hmin, hfirst⟩

theorem fetch_some_of_exists (l : List TaskControlBlock)
    (hex : ∃ t ∈ l, t.stride < USIZE_MAX) :
    ∃ t l', fetch l = some (t, l') := by
  rcases fetch_cases l with ⟨hidx, -⟩ | ⟨j, h, -, hsome⟩
  · obtain ⟨t, ht, hlt⟩ := hex
    exact absurd hlt ((fetchIdx_none_iff l USIZE_MAX).mp hidx t ht)
  · exact ⟨_, _, hsome⟩

theorem perm_get_cons_eraseIdx :
    ∀ (l : List TaskControlBlock) (j : Nat) (h : j < l.length),
      l.Perm (l.get ⟨j, h⟩ :: l.eraseIdx j) := by
  intro l
  induction l with
  | nil => intro j h; exact absurd h (by simp)
  | cons a rest ih =>
    intro j h
    cases j with
    | zero => exact List.Perm.refl _
    | succ j' =>
      have hj' : j' < rest.length := by simpa using Nat.lt_of_succ_lt_succ h
      have hperm := ih j' hj'
      show (a :: rest).Perm (rest.get ⟨j', hj'⟩ :: a :: rest.eraseIdx j')
      exact (hperm.cons a).trans
        (List.Perm.swap (rest.get ⟨j', hj'⟩) a (rest.eraseIdx j'))

/-- Repeated `fetch`: performs `n` calls to `TaskManager::fetch`,
collecting the returned tasks in call order together with the final state
of the ready list; a call returning `None` stops collecting. -/
def fetchN : Nat → List TaskControlBlock →
    List TaskControlBlock × List TaskControlBlock
  | 0, l => ([], l)
  | n + 1, l =>
    match fetch l with
    | none => ([], l)
    | some (t, l') =>
      let p := fetchN n l'
      (t :: p.1, p.2)

theorem fetchN_roundtrip :
    ∀ (n : Nat) (l : List TaskControlBlock), n = l.length →
      (∀ t ∈ l, t.stride < USIZE_MAX) →
      (fetchN n l).2 = [] ∧ (fetchN n l).1.Perm l := by
  intro n
  induction n with
  | zero =>
    intro l hn _
    have : l = [] := List.length_eq_zero.mp hn.symm
    subst this
    exact ⟨rfl, List.Perm.refl _⟩
  | succ n ih =>
    intro l hn hstr
    have hne : l ≠ [] := by
      intro hc; subst hc; simp at hn
    obtain ⟨t0, ht0⟩ := List.exists_mem_of_ne_nil l hne
    obtain ⟨t, l', hf⟩ := fetch_some_of_exists l ⟨t0, ht0, hstr t0 ht0⟩
    obtain ⟨j, h, hget, herase, -, -, -⟩ := fetch_eq_some_spec l t l' hf
    have hperm : l.Perm (t :: l') := by
      rw [hget, herase]; exact perm_get_cons_eraseIdx l j h
    have hlen : n = l'.length := by
      rw [herase]
      have := List.length_eraseIdx_add_one h
      omega
    have hsub : List.Sublist l' l := by
      rw [herase]; exact List.eraseIdx_sublist l j
    have hstr' : ∀ t ∈ l', t.stride < USIZE_MAX :=
      fun u hu => hstr u (hsub.mem hu)
    obtain ⟨he, hp⟩ := ih l' hlen hstr'
    refine ⟨?_, ?_⟩
    · show (fetchN (n + 1) l).2 = []
      simp only [fetchN, hf]
      exact he
    · show (fetchN (n + 1) l).1.Perm l
      simp only [fetchN, hf]
      exact ((hp.cons t).trans hperm.symm)

end TaskManager

/-- A concrete Task Control Block used for concrete evaluations; only the
stride and token fields vary. -/
def sampleTask (stride token : Nat) : TaskControlBlock :=
  { task_status := TaskStatus.Ready
    task_cx := TaskContext.zero_init
    stride := stride
    syscall_times := [0, 0, 0, 0]
    start_time := 0
    token := token
    trap_cx := ⟨0⟩
    memory_set := [] }

/-- Fatal faults of the task-relative operations: `noCurrent` models
`Option::unwrap` panicking on an empty `current` slot (the
internal-consistency fault), `indexOutOfBounds` models
`syscall_times[syscall_id]` panicking on an invalid index. -/
inductive Fault where
  | noCurrent
  | indexOutOfBounds
deriving DecidableEq

/-- Modelled from the spec: the page size of the target; `PAGE_SIZE` and
`VirtAddr` live in the external `mm` module. -/
def PAGE_SIZE : Nat := 4096

/-- Modelled from the spec: `VirtAddr::page_offset` — the low bits of the
address below the page boundary. -/
def page_offset (va : Nat) : Nat := va % PAGE_SIZE

/-- Modelled from the spec: whether a tracked framed mapping overlaps the
half-open byte range `[s, e)`. -/
def FramedArea.overlaps (a : FramedArea) (s e : Nat) : Bool :=
  decide (a.astart < e) && decide (s < a.aend)

/-- Modelled from the spec: the external address-space operation
`insert_framed_area(start, end, permissions) -> bool` — all-or-nothing
insertion of a framed mapping, failing iff the region overlaps an existing
mapping; `none` models the failing `false` return (no mutation), `some`
carries the updated map. -/
def insert_framed_area (ms : List FramedArea) (s e : Nat)
    (p : MapPermission) : Option (List FramedArea) :=
  if ms.any (fun a => a.overlaps s e) then none
  else some (ms ++ [⟨s, e, p⟩])

/-- Modelled from the spec: the external address-space operation
`free_framed_area(start, end) -> bool` — removes the framed mapping
tracked with exactly the bounds `[start, end)`, failing iff no such exact
region is tracked. -/
def free_framed_area (ms : List FramedArea) (s e : Nat) :
    Option (List FramedArea) :=
  if ms.any (fun a => a.astart == s && a.aend == e) then
    some (ms.eraseP (fun a => a.astart == s && a.aend == e))
  else none

/-- Embeds `TaskInfo` as built by `Processor::get_current_task`. -/
structure TaskInfo where
  status : TaskStatus
  syscall_times : List Nat
  time : Nat
deriving DecidableEq

/-- Embeds the `Processor` structure: the current-task slot and the idle
control-flow context. -/
structure Processor where
  current : Option TaskControlBlock
  idle_task_cx : TaskContext
deriving DecidableEq

/-- Embeds `Processor::new`. -/
def Processor.new : Processor :=
  { current := none, idle_task_cx := TaskContext.zero_init }

/-- Embeds `Processor::take_current`: `self.current.take()` — empties the
slot and returns what it held. -/
def Processor.take_current (p : Processor) :
    Option TaskControlBlock × Processor :=
  (p.current, { p with current := none })

/-- Embeds `Processor::current`: `self.current.as_ref().map(Arc::clone)` —
a second shared handle to the current task without disturbing the slot; in
the embedding the cloned `Arc` is the task value itself. (The Lean field
projection already owns the name `Processor.current`.) -/
def Processor.currentClone (p : Processor) : Option TaskControlBlock :=
  p.current.map (fun task => task)

/-- Embeds `Processor::count_numbers_of_syscall`:
`self.current().unwrap()` then `syscall_times[syscall_id] += 1`; both
panic paths appear as `Fault`s. -/
def Processor.count_numbers_of_syscall (p : Processor) (syscall_id : Nat) :
    Except Fault Processor :=
  match p.currentClone with
  | none => .error .noCurrent
  | some task =>
    if h : syscall_id < task.syscall_times.length then
      .ok { p with current := some { task with
        syscall_times := task.syscall_times.set syscall_id
          (task.syscall_times.get ⟨syscall_id, h⟩ + 1) } }
    else .error .indexOutOfBounds

/-- Embeds `Processor::get_current_task`: snapshot of status, a clone of
the syscall-counter table, and elapsed milliseconds since `start_time`;
`now_ms` stands for the external `timer::get_time_ms()`. The state-free
codomain reflects that this is a pure read (`&self`, `readonly_access`). -/
def Processor.get_current_task (p : Processor) (now_ms : Nat) :
    Except Fault TaskInfo :=
  match p.currentClone with
  | none => .error .noCurrent
  | some task =>
    .ok { status := task.task_status
          syscall_times := task.syscall_times
          time := now_ms - task.start_time }

/-- Embeds `Processor::mmap`: alignment check on `_start`, decode of
`_port`, rejection of a directly-supplied User bit, rejection of an empty
Read/Write/Execute set, implicit addition of the User bit, then delegation
to the current task's address space; the `unwrap` of the current slot
happens only after the three validation checks. -/
def Processor.mmap (p : Processor) (_start _len _port : Nat) :
    Except Fault (Int × Processor) :=
  if page_offset _start ≠ 0 then .ok (-1, p)
  else
    let map_perm := MapPermission.fromPort _port
    if map_perm.inter MapPermission.U ≠ MapPermission.empty then .ok (-1, p)
    else if map_perm.inter ((MapPermission.X.union MapPermission.W).union
        MapPermission.R) = MapPermission.empty then .ok (-1, p)
    else
      match p.currentClone with
      | none => .error .noCurrent
      | some task =>
        match insert_framed_area task.memory_set _start (_start + _len)
            (map_perm.union MapPermission.U) with
        | none => .ok (-1, p)
        | some ms =>
          .ok (0, { p with current := some { task with memory_set := ms } })

/-- Embeds `Processor::munmap`: alignment check on `_start`, then
delegation to `free_framed_area` on the current task's address space. -/
def Processor.munmap (p : Processor) (_start _len : Nat) :
    Except Fault (Int × Processor) :=
  if page_offset _start ≠ 0 then .ok (-1, p)
  else
    match p.currentClone with
    | none => .error .noCurrent
    | some task =>
      match free_framed_area task.memory_set _start (_start + _len) with
      | none => .ok (-1, p)
      | some ms =>
        .ok (0, { p with current := some { task with memory_set := ms } })

/-- Embeds the free function `current_user_token`:
`current_task().unwrap().get_user_token()`. -/
def current_user_token (p : Processor) : Except Fault Nat :=
  match p.currentClone with
  | none => .error .noCurrent
  | some task => .ok task.token

/-- Embeds the free function `current_trap_cx`:
`current_task().unwrap().inner_exclusive_access().get_trap_cx()`. -/
def current_trap_cx (p : Processor) : Except Fault TrapContext :=
  match p.currentClone with
  | none => .error .noCurrent
  | some task => .ok task.trap_cx

/-- Kernel state visible to the dispatch loop: the Task Manager's ready
list plus the Processor. -/
structure KernelState where
  task_manager : List TaskControlBlock
  processor : Processor
deriving DecidableEq

/-- Embeds one iteration of the `run_tasks` dispatch-loop body: on a
successful fetch the task is marked `Running` and stored as `current` (the
subsequent `__switch` is the opaque external control-transfer primitive);
on an empty fetch the body only emits the `warn!` report — the returned
flag — and leaves all state unchanged. The body has no return, break or
panic path, so it is a total function and the loop retries forever. -/
def run_tasks_step (s : KernelState) : KernelState × Bool :=
  match TaskManager.fetch s.task_manager with
  | some (task, rest) =>
    ({ task_manager := rest
       processor := { s.processor with
         current := some { task with task_status := TaskStatus.Running } } },
     false)
  | none => (s, true)

/-- Iterates the dispatch-loop body; total for every iteration count, as
the loop never exits. -/
def run_tasks_iter : Nat → KernelState → KernelState
  | 0, s => s
  | n + 1, s => run_tasks_iter n (run_tasks_step s).1

/-- `k` successive invocations of `count_numbers_of_syscall` with the same
syscall index, propagating any fault. -/
def count_iter (syscall_id : Nat) : Nat → Processor → Except Fault Processor
  | 0, p => .ok p
  | k + 1, p =>
    match p.count_numbers_of_syscall syscall_id with
    | .error e => .error e
    | .ok p' => count_iter syscall_id k p'

/-- C1 (amended): `fetch` returns nothing iff no task in the Ready List has
stride strictly below `usize::MAX` (in particular on the empty list); when
some task has stride below `usize::MAX`, `fetch` removes and returns the
task at the position of the minimum stride found by the single scan. -/
theorem fetch_none_iff_and_min (l : List TaskControlBlock) :
    (TaskManager.fetch l = none ↔ ∀ t ∈ l, ¬ t.stride < USIZE_MAX) ∧
    ((∃ t ∈ l, t.stride < USIZE_MAX) →
      ∃ t l', TaskManager.fetch l = some (t, l')) ∧
    (∀ t l', TaskManager.fetch l = some (t, l') →
      ∃ j, ∃ h : j < l.length, t = l.get ⟨j, h⟩ ∧ l' = l.eraseIdx j ∧
        ∀ k (hk : k < l.length), t.stride ≤ (l.get ⟨k, hk⟩).stride) := by
  refine ⟨TaskManager.fetch_eq_none_iff l, TaskManager.fetch_some_of_exists l, ?_⟩
  intro t l' hf
  obtain ⟨j, h, hget, herase, -, hmin, -⟩ := TaskManager.fetch_eq_some_spec l t l' hf
  exact ⟨j, h, hget, herase, hmin⟩

theorem fetch_none_iff_and_min_witness : TaskManager.fetch [] = none :=
  (fetch_none_iff_and_min []).1.mpr (by simp)

/-- C1 counterexample: a non-empty Ready List on which `fetch` returns
nothing — a single task whose stride is exactly `usize::MAX` is never
selected, because the scan's initial minimum is `usize::MAX` and the
comparison is strict. -/
theorem fetch_nonempty_none_cex :
    TaskManager.fetch [sampleTask USIZE_MAX 0] = none ∧
    [sampleTask USIZE_MAX 0] ≠ ([] : List TaskControlBlock) := by
  constructor
  · exact (fetch_none_iff_and_min [sampleTask USIZE_MAX 0]).1.mpr (by
      intro t ht
      simp only [List.mem_singleton] at ht
      subst ht
      simp [sampleTask])
  · simp

/-- C2 (amended): whenever some task's stride is below `usize::MAX`,
`fetch` returns the earliest-inserted task among those achieving the
minimum stride (FIFO tie-break via the strict less-than comparison); when
every task's stride equals `usize::MAX`, `fetch` instead returns nothing. -/
theorem fetch_fifo_tie_break (l : List TaskControlBlock)
    (hex : ∃ t ∈ l, t.stride < USIZE_MAX) :
    ∃ t l' j, ∃ h : j < l.length,
      TaskManager.fetch l = some (t, l') ∧
      t = l.get ⟨j, h⟩ ∧
      (∀ k (hk : k < l.length), t.stride ≤ (l.get ⟨k, hk⟩).stride) ∧
      (∀ k (hk : k < l.length), (l.get ⟨k, hk⟩).stride = t.stride → j ≤ k) := by
  obtain ⟨t, l', hf⟩ := TaskManager.fetch_some_of_exists l hex
  obtain ⟨j, h, hget, herase, -, hmin, hfirst⟩ :=
    TaskManager.fetch_eq_some_spec l t l' hf
  refine ⟨t, l', j, h, hf, hget, hmin, ?_⟩
  intro k hk heq
  by_contra hlt
  have hkj : k < j := Nat.lt_of_not_le hlt
  have := hfirst k hkj
  omega

theorem fetch_fifo_tie_break_witness :
    (TaskManager.fetch [sampleTask 5 0, sampleTask 5 1]).isSome = true := by
  obtain ⟨t, l', j, h, hf, -⟩ :=
    fetch_fifo_tie_break [sampleTask 5 0, sampleTask 5 1]
      ⟨sampleTask 5 0, by simp, by simp [sampleTask, USIZE_MAX]⟩
  rw [hf]
  rfl

/-- C2 counterexample: two distinct tasks with equal stride
`usize::MAX` — the minimum stride of the list — yet `fetch` returns
nothing rather than the earliest-inserted of them. -/
theorem fetch_tie_break_cex :
    TaskManager.fetch [sampleTask USIZE_MAX 0, sampleTask USIZE_MAX 1] = none ∧
    (sampleTask USIZE_MAX 0).stride = (sampleTask USIZE_MAX 1).stride ∧
    sampleTask USIZE_MAX 0 ≠ sampleTask USIZE_MAX 1 := by
  refine ⟨?_, rfl, by simp [sampleTask]⟩
  apply (TaskManager.fetch_eq_none_iff _).mpr
  intro t ht
  rcases List.mem_cons.mp ht with rfl | ht
  · simp [sampleTask]
  · rcases List.mem_singleton.mp ht with rfl
    simp [sampleTask]

/-- C3 (amended): a fetched task has one occurrence removed from the Ready
List (so with pairwise-distinct tasks it is absent afterwards, ownership
transferring to the caller); and adding N distinct tasks whose strides are
all below `usize::MAX` and fetching N times yields all N tasks with the
list left empty. A task with stride exactly `usize::MAX` is never fetched
and remains in the list, so the round trip needs the stride bound. -/
theorem fetch_ownership_roundtrip :
    (∀ (l : List TaskControlBlock) t l',
      TaskManager.fetch l = some (t, l') →
        l.Perm (t :: l') ∧ (l.Nodup → t ∉ l')) ∧
    (∀ l : List TaskControlBlock, l.Nodup →
      (∀ t ∈ l, t.stride < USIZE_MAX) →
      (TaskManager.fetchN l.length l).2 = [] ∧
      (TaskManager.fetchN l.length l).1.Perm l ∧
      (TaskManager.fetchN l.length l).1.Nodup) := by
  constructor
  · intro l t l' hf
    obtain ⟨j, h, hget, herase, -, -, -⟩ :=
      TaskManager.fetch_eq_some_spec l t l' hf
    have hperm : l.Perm (t :: l') := by
      rw [hget, herase]; exact TaskManager.perm_get_cons_eraseIdx l j h
    refine ⟨hperm, ?_⟩
    intro hnodup
    have : (t :: l').Nodup := hperm.nodup hnodup
    exact (List.nodup_cons.mp this).1
  · intro l hnodup hstr
    obtain ⟨he, hp⟩ := TaskManager.fetchN_roundtrip l.length l rfl hstr
    exact ⟨he, hp, hp.symm.nodup hnodup⟩

theorem fetch_ownership_roundtrip_witness :
    (TaskManager.fetchN 2 [sampleTask 3 0, sampleTask 7 1]).2 = [] := by
  have h := fetch_ownership_roundtrip.2 [sampleTask 3 0, sampleTask 7 1]
    (by simp [sampleTask]) (by
      intro t ht
      rcases List.mem_cons.mp ht with rfl | ht
      · simp [sampleTask, USIZE_MAX]
      · rcases List.mem_singleton.mp ht with rfl
        simp [sampleTask, USIZE_MAX])
  exact h.1

/-- C3 counterexample: add one task of stride `usize::MAX` to the empty
Ready List, then fetch once — the fetch returns nothing and the list is
not empty, so the add-N/fetch-N round trip fails as stated. -/
theorem fetch_roundtrip_cex :
    TaskManager.add [] (sampleTask USIZE_MAX 0) = [sampleTask USIZE_MAX 0] ∧
    (TaskManager.fetchN 1 [sampleTask USIZE_MAX 0]).2 ≠ [] := by
  refine ⟨rfl, ?_⟩
  have hnone : TaskManager.fetch [sampleTask USIZE_MAX 0] = none :=
    (TaskManager.fetch_eq_none_iff _).mpr (by
      intro t ht
      rcases List.mem_singleton.mp ht with rfl
      simp [sampleTask])
  show (TaskManager.fetchN 1 [sampleTask USIZE_MAX 0]).2 ≠ []
  simp only [TaskManager.fetchN, hnone]
  simp

/-- C10: when `fetch` returns a task, the new Ready List is the old one
with exactly the element at the discovered minimum position removed: it is
a sublist of the old list, so every remaining task is one of the original
task values, unmodified (the scan only reads `stride`), and their relative
order is preserved, keeping FIFO tie-breaking correct across calls. -/
theorem fetch_frame_preservation (l : List TaskControlBlock)
    (t : TaskControlBlock) (l' : List TaskControlBlock)
    (hf : TaskManager.fetch l = some (t, l')) :
    List.Sublist l' l ∧
    ∃ j, ∃ h : j < l.length, t = l.get ⟨j, h⟩ ∧ l' = l.eraseIdx j := by
  obtain ⟨j, h, hget, herase, -, -, -⟩ :=
    TaskManager.fetch_eq_some_spec l t l' hf
  refine ⟨?_, j, h, hget, herase⟩
  rw [herase]
  exact List.eraseIdx_sublist l j

theorem fetch_frame_preservation_witness :
    List.Sublist
      (TaskManager.fetchN 1 [sampleTask 9 0, sampleTask 2 1, sampleTask 4 2]).2
      [sampleTask 9 0, sampleTask 2 1, sampleTask 4 2] := by
  have hf : TaskManager.fetch [sampleTask 9 0, sampleTask 2 1, sampleTask 4 2] =
      some (sampleTask 2 1, [sampleTask 9 0, sampleTask 4 2]) := by decide
  have h := fetch_frame_preservation _ _ _ hf
  simp only [TaskManager.fetchN, hf]
  exact h.1

theorem inter_U_ne_empty_iff (m : MapPermission) :
    m.inter MapPermission.U ≠ MapPermission.empty ↔ m.u = true := by
  cases m with
  | mk r w x u =>
    cases u <;>
      simp [MapPermission.inter, MapPermission.U, MapPermission.empty]

theorem inter_XWR_eq_empty_iff (m : MapPermission) :
    m.inter ((MapPermission.X.union MapPermission.W).union MapPermission.R) =
      MapPermission.empty ↔ (m.r = false ∧ m.w = false ∧ m.x = false) := by
  cases m with
  | mk r w x u =>
    cases r <;> cases w <;> cases x <;>
      simp [MapPermission.inter, MapPermission.union, MapPermission.X,
        MapPermission.W, MapPermission.R, MapPermission.empty]

/-- C4: with a task current, `mmap(addr, length, port)` fails with `-1` and
unchanged state when `addr` is not page-aligned, when the decoded
permission set carries the raw User bit, or when it carries none of
Read/Write/Execute; otherwise the User bit is added implicitly and the
framed mapping `[addr, addr+length)` is delegated to the task's address
space, returning `-1` with unchanged state if the address space rejects it
and `0` with the updated address space if it accepts. -/
theorem mmap_validation (p : Processor) (task : TaskControlBlock)
    (hcur : p.current = some task) (s len port : Nat) :
    (page_offset s ≠ 0 → p.mmap s len port = .ok (-1, p)) ∧
    (page_offset s = 0 → (MapPermission.fromPort port).u = true →
      p.mmap s len port = .ok (-1, p)) ∧
    (page_offset s = 0 → (MapPermission.fromPort port).u = false →
      (MapPermission.fromPort port).r = false →
      (MapPermission.fromPort port).w = false →
      (MapPermission.fromPort port).x = false →
      p.mmap s len port = .ok (-1, p)) ∧
    (page_offset s = 0 → (MapPermission.fromPort port).u = false →
      ((MapPermission.fromPort port).r || (MapPermission.fromPort port).w ||
        (MapPermission.fromPort port).x) = true →
      p.mmap s len port =
        match insert_framed_area task.memory_set s (s + len)
            ((MapPermission.fromPort port).union MapPermission.U) with
        | none => .ok (-1, p)
        | some ms =>
          .ok (0, { p with current := some { task with memory_set := ms } })) := by
  refine ⟨?_, ?_, ?_, ?_⟩
  · intro hal
    simp [Processor.mmap, hal]
  · intro hal hu
    rw [Processor.mmap, if_neg (by simp [hal])]
    simp only []
    rw [if_pos ((inter_U_ne_empty_iff _).mpr hu)]
  · intro hal hu hr hw hx
    rw [Processor.mmap, if_neg (by simp [hal])]
    simp only []
    rw [if_neg (by rw [inter_U_ne_empty_iff, hu]; simp),
      if_pos ((inter_XWR_eq_empty_iff _).mpr ⟨hr, hw, hx⟩)]
  · intro hal hu hrwx
    rw [Processor.mmap, if_neg (by simp [hal])]
    simp only []
    rw [if_neg (by rw [inter_U_ne_empty_iff, hu]; simp),
      if_neg (by
        rw [inter_XWR_eq_empty_iff]
        rintro ⟨hr, hw, hx⟩
        rw [hr, hw, hx] at hrwx
        simp at hrwx)]
    simp [Processor.currentClone, hcur]

/-- A concrete Processor holding a concrete current task, for concrete
evaluations. -/
def sampleProc (t : TaskControlBlock) : Processor :=
  { current := some t, idle_task_cx := TaskContext.zero_init }

/-- A concrete Processor with an empty current slot. -/
def emptyProc : Processor :=
  { current := none, idle_task_cx := TaskContext.zero_init }

theorem mmap_validation_witness :
    Processor.mmap (sampleProc (sampleTask 0 0)) 1 0 7 =
      .ok (-1, sampleProc (sampleTask 0 0)) :=
  (mmap_validation (sampleProc (sampleTask 0 0)) (sampleTask 0 0) rfl 1 0 7).1
    (by decide)

theorem countP_one_eraseP_any (l : List FramedArea) (pr : FramedArea → Bool)
    (h : l.countP pr = 1) : (l.eraseP pr).any pr = false := by
  induction l with
  | nil => simp at h
  | cons a t ih =>
    cases ha : pr a with
    | true =>
      rw [List.eraseP_cons_of_pos ha]
      rw [List.countP_cons_of_pos pr t ha] at h
      have ht : t.countP pr = 0 := by omega
      have := List.countP_eq_zero.mp ht
      simp only [List.any_eq_false]
      exact this
    | false =>
      rw [List.eraseP_cons_of_neg (by simp [ha])]
      rw [List.countP_cons_of_neg pr t (by simp [ha])] at h
      simp only [List.any_cons, ha, Bool.false_or]
      exact ih h

/-- C5: with a task current, `munmap(addr, length)` fails with `-1` and
unchanged state when `addr` is not page-aligned, fails with `-1` and
unchanged state exactly when the task's address space tracks no framed
mapping with exactly the bounds `[addr, addr+length)`, succeeds with `0`
removing the exact region when one is tracked, and — when the region was
tracked exactly once — a second identical `munmap` then fails with `-1`
and no state change. -/
theorem munmap_exactness (p : Processor) (task : TaskControlBlock)
    (hcur : p.current = some task) (s len : Nat) :
    (page_offset s ≠ 0 → p.munmap s len = .ok (-1, p)) ∧
    (page_offset s = 0 →
      (task.memory_set.any
          (fun a => a.astart == s && a.aend == s + len) = false →
        p.munmap s len = .ok (-1, p)) ∧
      (task.memory_set.any
          (fun a => a.astart == s && a.aend == s + len) = true →
        ∃ p' task',
          p.munmap s len = .ok (0, p') ∧
          p'.current = some task' ∧
          task'.memory_set = task.memory_set.eraseP
            (fun a => a.astart == s && a.aend == s + len) ∧
          p'.idle_task_cx = p.idle_task_cx ∧
          (task.memory_set.countP
              (fun a => a.astart == s && a.aend == s + len) = 1 →
            p'.munmap s len = .ok (-1, p')))) := by
  constructor
  · intro hal
    simp [Processor.munmap, hal]
  · intro hal
    constructor
    · intro hnone
      rw [Processor.munmap, if_neg (by simp [hal])]
      simp only [Processor.currentClone, hcur, Option.map_some']
      rw [free_framed_area, if_neg (by simp [hnone])]
    · intro hsome
      let erased := task.memory_set.eraseP
        (fun a => a.astart == s && a.aend == s + len)
      let task' : TaskControlBlock := { task with memory_set := erased }
      let p' : Processor := { p with current := some task' }
      refine ⟨p', task', ?_, rfl, rfl, rfl, ?_⟩
      · rw [Processor.munmap, if_neg (by simp [hal])]
        simp only [Processor.currentClone, hcur, Option.map_some']
        rw [free_framed_area, if_pos hsome]
      · intro hcount
        have herased := countP_one_eraseP_any task.memory_set
          (fun a => a.astart == s && a.aend == s + len) hcount
        rw [Processor.munmap, if_neg (by simp [hal])]
        simp only [Processor.currentClone, Option.map_some']
        rw [free_framed_area, if_neg (by simp [herased])]

theorem munmap_exactness_witness :
    Processor.munmap (sampleProc (sampleTask 0 0)) PAGE_SIZE 17 =
      .ok (-1, sampleProc (sampleTask 0 0)) :=
  (((munmap_exactness (sampleProc (sampleTask 0 0)) (sampleTask 0 0) rfl
      PAGE_SIZE 17).2 (by decide)).1) (by decide)

theorem getD_set_self (l : List Nat) (i x : Nat) (h : i < l.length) :
    (l.set i x).getD i 0 = x := by
  induction l generalizing i with
  | nil => simp at h
  | cons a t ih =>
    cases i with
    | zero => rfl
    | succ i' =>
      have h' : i' < t.length := by simpa using Nat.lt_of_succ_lt_succ h
      simpa using ih i' h'

theorem getD_set_ne (l : List Nat) (i j x : Nat) (hne : j ≠ i) :
    (l.set i x).getD j 0 = l.getD j 0 := by
  induction l generalizing i j with
  | nil => simp
  | cons a t ih =>
    cases i with
    | zero =>
      cases j with
      | zero => exact absurd rfl hne
      | succ j' => rfl
    | succ i' =>
      cases j with
      | zero => rfl
      | succ j' =>
        have : j' ≠ i' := fun hc => hne (by rw [hc])
        simpa using ih i' j' this

theorem get_eq_getD (l : List Nat) (i : Nat) (h : i < l.length) :
    l.get ⟨i, h⟩ = l.getD i 0 := by
  induction l generalizing i with
  | nil => simp at h
  | cons a t ih =>
    cases i with
    | zero => rfl
    | succ i' =>
      have h' : i' < t.length := by simpa using Nat.lt_of_succ_lt_succ h
      simpa using ih i' h'

theorem count_iter_spec (id : Nat) :
    ∀ (k : Nat) (p : Processor) (task : TaskControlBlock),
      p.current = some task → id < task.syscall_times.length →
      ∃ task',
        count_iter id k p = .ok { p with current := some task' } ∧
        task'.syscall_times.length = task.syscall_times.length ∧
        task'.syscall_times.getD id 0 = task.syscall_times.getD id 0 + k ∧
        (∀ j, j ≠ id → task'.syscall_times.getD j 0 =
          task.syscall_times.getD j 0) ∧
        task'.task_status = task.task_status ∧
        task'.start_time = task.start_time := by
  intro k
  induction k with
  | zero =>
    intro p task hcur hid
    refine ⟨task, ?_, rfl, by omega, fun j _ => rfl, rfl, rfl⟩
    show Except.ok p = Except.ok { p with current := some task }
    cases p with
    | mk c icx =>
      simp only at hcur
      rw [hcur]
  | succ k ih =>
    intro p task hcur hid
    let ts1 := task.syscall_times.set id (task.syscall_times.get ⟨id, hid⟩ + 1)
    let task1 : TaskControlBlock := { task with syscall_times := ts1 }
    let p1 : Processor := { p with current := some task1 }
    have hstep : p.count_numbers_of_syscall id = .ok p1 := by
      rw [Processor.count_numbers_of_syscall]
      simp only [Processor.currentClone, hcur, Option.map_some']
      rw [dif_pos hid]
    have hid1 : id < task1.syscall_times.length := by
      show id <
        (task.syscall_times.set id (task.syscall_times.get ⟨id, hid⟩ + 1)).length
      simpa using hid
    obtain ⟨task', hiter, hlen, hself, hother, hst, hstart⟩ :=
      ih p1 task1 rfl hid1
    refine ⟨task', ?_, ?_, ?_, ?_, hst, hstart⟩
    · show count_iter id (k + 1) p = _
      rw [count_iter, hstep]
      exact hiter
    · rw [hlen]
      show
        (task.syscall_times.set id (task.syscall_times.get ⟨id, hid⟩ + 1)).length =
          task.syscall_times.length
      simp
    · rw [hself]
      have h1 :
          (task.syscall_times.set id
            (task.syscall_times.get ⟨id, hid⟩ + 1)).getD id 0 =
            task.syscall_times.getD id 0 + 1 := by
        rw [getD_set_self _ _ _ hid, get_eq_getD _ _ hid]
      show
        (task.syscall_times.set id
          (task.syscall_times.get ⟨id, hid⟩ + 1)).getD id 0 + k = _
      rw [h1]
      omega
    · intro j hj
      rw [hother j hj]
      exact getD_set_ne _ _ _ _ hj

/-- C6: with a task current whose counter at a valid index `id` starts at
zero, `k` invocations of `count_numbers_of_syscall(id)` succeed, each
incrementing exactly the counter at index `id` by one, after which
`get_current_task` reports that counter equal to `k` with every other
index unchanged (and the task's status and start time untouched). -/
theorem syscall_counter_accuracy (p : Processor) (task : TaskControlBlock)
    (hcur : p.current = some task) (id k now : Nat)
    (hid : id < task.syscall_times.length)
    (hzero : task.syscall_times.getD id 0 = 0) :
    ∃ task',
      count_iter id k p = .ok { p with current := some task' } ∧
      task'.syscall_times.getD id 0 = k ∧
      (∀ j, j ≠ id → task'.syscall_times.getD j 0 =
        task.syscall_times.getD j 0) ∧
      Processor.get_current_task { p with current := some task' } now =
        .ok ⟨task.task_status, task'.syscall_times, now - task.start_time⟩ := by
  obtain ⟨task', hiter, hlen, hself, hother, hst, hstart⟩ :=
    count_iter_spec id k p task hcur hid
  refine ⟨task', hiter, ?_, hother, ?_⟩
  · rw [hself, hzero]
    omega
  · rw [Processor.get_current_task]
    simp only [Processor.currentClone, Option.map_some']
    rw [hst, hstart]

theorem syscall_counter_accuracy_witness :
    (count_iter 1 3 (sampleProc (sampleTask 0 0))).isOk = true := by
  obtain ⟨task', hiter, -, -, -⟩ :=
    syscall_counter_accuracy (sampleProc (sampleTask 0 0)) (sampleTask 0 0)
      rfl 1 3 7 (by decide) (by decide)
  rw [hiter]
  rfl

/-- C7: `take_current` empties the current slot and returns the handle it
held, so a subsequent `current` on the resulting state returns nothing,
and the idle context is untouched; `current` returns a handle to the same
task determined by the unchanged slot — its state-free codomain (Rust
`&self`) embeds "alters no Processor state", so repeated calls yield the
same handle; `get_current_task` is likewise a pure read returning the
snapshot without mutating task or Processor. -/
theorem current_task_isolation (p : Processor) (task : TaskControlBlock)
    (hcur : p.current = some task) (now : Nat) :
    p.take_current = (some task, { current := none, idle_task_cx := p.idle_task_cx }) ∧
    (p.take_current).2.currentClone = none ∧
    p.currentClone = some task ∧
    (p.take_current).2.idle_task_cx = p.idle_task_cx ∧
    p.get_current_task now =
      .ok ⟨task.task_status, task.syscall_times, now - task.start_time⟩ := by
  refine ⟨?_, rfl, ?_, rfl, ?_⟩
  · simp [Processor.take_current, hcur]
  · simp [Processor.currentClone, hcur]
  · rw [Processor.get_current_task]
    simp only [Processor.currentClone, hcur, Option.map_some']

theorem current_task_isolation_witness :
    ((sampleProc (sampleTask 0 0)).take_current).2.currentClone = none :=
  (current_task_isolation (sampleProc (sampleTask 0 0)) (sampleTask 0 0)
    rfl 0).2.1

/-- C8: one iteration of the dispatch loop body is a total function — the
body has no return, break or panic path, so `run_tasks` never returns —
and an iteration in which the Task Manager yields no task emits the
warning report and leaves the whole kernel state unchanged; consequently
iterating any number of times from a state with no runnable work
busy-polls forever instead of crashing or terminating. -/
theorem run_tasks_busy_poll (s : KernelState)
    (hempty : TaskManager.fetch s.task_manager = none) :
    run_tasks_step s = (s, true) ∧ ∀ n, run_tasks_iter n s = s := by
  have h1 : run_tasks_step s = (s, true) := by
    rw [run_tasks_step, hempty]
  refine ⟨h1, ?_⟩
  intro n
  induction n with
  | zero => rfl
  | succ n ih =>
    show run_tasks_iter n (run_tasks_step s).1 = s
    rw [h1]
    exact ih

theorem run_tasks_busy_poll_witness :
    run_tasks_step { task_manager := [], processor := Processor.new } =
      ({ task_manager := [], processor := Processor.new }, true) :=
  (run_tasks_busy_poll { task_manager := [], processor := Processor.new }
    rfl).1

theorem mmap_no_fault_of_current (p : Processor) (task : TaskControlBlock)
    (hcur : p.current = some task) (s len port : Nat) :
    p.mmap s len port ≠ .error Fault.noCurrent := by
  rw [Processor.mmap]
  by_cases h1 : page_offset s ≠ 0
  · simp [h1]
  · rw [if_neg h1]
    simp only []
    by_cases h2 : MapPermission.inter (MapPermission.fromPort port)
        MapPermission.U ≠ MapPermission.empty
    · rw [if_pos h2]; simp
    · rw [if_neg h2]
      by_cases h3 : MapPermission.inter (MapPermission.fromPort port)
          ((MapPermission.X.union MapPermission.W).union MapPermission.R) =
            MapPermission.empty
      · rw [if_pos h3]; simp
      · rw [if_neg h3]
        simp only [Processor.currentClone, hcur, Option.map_some']
        cases insert_framed_area task.memory_set s (s + len)
          ((MapPermission.fromPort port).union MapPermission.U) <;> simp

theorem munmap_no_fault_of_current (p : Processor) (task : TaskControlBlock)
    (hcur : p.current = some task) (s len : Nat) :
    p.munmap s len ≠ .error Fault.noCurrent := by
  rw [Processor.munmap]
  by_cases h1 : page_offset s ≠ 0
  · simp [h1]
  · rw [if_neg h1]
    simp only [Processor.currentClone, hcur, Option.map_some']
    cases free_framed_area task.memory_set s (s + len) <;> simp

/-- C9 (amended): with the current slot empty,
`count_numbers_of_syscall`, `get_current_task`, `current_user_token` and
`current_trap_cx` always hit the fatal empty-slot fault; `mmap` and
`munmap` hit it exactly when argument validation passes — a validation
failure returns the benign `-1` before the slot is consulted; and with a
task current, the empty-slot fault is unreachable in all six operations. -/
theorem empty_slot_fault_spec (p : Processor) (id s len port now : Nat) :
    (p.current = none →
      p.count_numbers_of_syscall id = .error Fault.noCurrent ∧
      p.get_current_task now = .error Fault.noCurrent ∧
      current_user_token p = .error Fault.noCurrent ∧
      current_trap_cx p = .error Fault.noCurrent ∧
      (page_offset s = 0 → (MapPermission.fromPort port).u = false →
        ((MapPermission.fromPort port).r || (MapPermission.fromPort port).w ||
          (MapPermission.fromPort port).x) = true →
        p.mmap s len port = .error Fault.noCurrent) ∧
      (page_offset s = 0 → p.munmap s len = .error Fault.noCurrent)) ∧
    (∀ task, p.current = some task →
      p.count_numbers_of_syscall id ≠ .error Fault.noCurrent ∧
      p.get_current_task now ≠ .error Fault.noCurrent ∧
      current_user_token p ≠ .error Fault.noCurrent ∧
      current_trap_cx p ≠ .error Fault.noCurrent ∧
      p.mmap s len port ≠ .error Fault.noCurrent ∧
      p.munmap s len ≠ .error Fault.noCurrent) := by
  constructor
  · intro hnone
    refine ⟨?_, ?_, ?_, ?_, ?_, ?_⟩
    · rw [Processor.count_numbers_of_syscall]
      simp [Processor.currentClone, hnone]
    · rw [Processor.get_current_task]
      simp [Processor.currentClone, hnone]
    · rw [current_user_token]
      simp [Processor.currentClone, hnone]
    · rw [current_trap_cx]
      simp [Processor.currentClone, hnone]
    · intro hal hu hrwx
      rw [Processor.mmap, if_neg (by simp [hal])]
      simp only []
      rw [if_neg (by rw [inter_U_ne_empty_iff, hu]; simp),
        if_neg (by
          rw [inter_XWR_eq_empty_iff]
          rintro ⟨hr, hw, hx⟩
          rw [hr, hw, hx] at hrwx
          simp at hrwx)]
      simp [Processor.currentClone, hnone]
    · intro hal
      rw [Processor.munmap, if_neg (by simp [hal])]
      simp [Processor.currentClone, hnone]
  · intro task hcur
    refine ⟨?_, ?_, ?_, ?_,
      mmap_no_fault_of_current p task hcur s len port,
      munmap_no_fault_of_current p task hcur s len⟩
    · rw [Processor.count_numbers_of_syscall]
      simp only [Processor.currentClone, hcur, Option.map_some']
      by_cases hid : id < task.syscall_times.length
      · rw [dif_pos hid]; simp
      · rw [dif_neg hid]; simp
    · rw [Processor.get_current_task]
      simp [Processor.currentClone, hcur]
    · rw [current_user_token]
      simp [Processor.currentClone, hcur]
    · rw [current_trap_cx]
      simp [Processor.currentClone, hcur]

theorem empty_slot_fault_spec_witness :
    Processor.count_numbers_of_syscall emptyProc 0 = .error Fault.noCurrent :=
  ((empty_slot_fault_spec emptyProc 0 0 0 0 0).1 rfl).1

/-- C9 counterexample: `mmap` invoked with a misaligned address while the
current slot is empty returns the benign failure code `-1` with no state
change, instead of the claimed fatal internal-consistency fault — the
alignment check precedes the `unwrap` of the current slot. (`munmap`
behaves the same way.) -/
theorem empty_slot_benign_mmap_cex :
    Processor.mmap emptyProc 1 0 7 = .ok (-1, emptyProc) ∧
    Processor.munmap emptyProc 1 0 = .ok (-1, emptyProc) := by
  constructor <;> rfl
